import Mathlib

/-
Verification development for the reconciliation orchestration engine in
hierarchicalforecast (src/hierarchicalforecast/core.py).

The embedding below translates the code of
HierarchicalReconciliation.reconcile and the helper _build_fn_name into
Lean.  Column names, series identifiers and dictionary keys are lists of
characters; tables are association lists of columns over an explicit row
index; the pandas pivot plus .loc composition is modelled by pivotLoc with
NaN cells represented as none; the Python dictionary common_vals is an
association list with insertion-order semantics, where deletion of an
absent key is a KeyError; fallible steps return Except.  Machine floats
are modelled by the rationals; the inverse normal cumulative distribution
function norm.ppf is an explicit function parameter ppf since scipy is an
external collaborator.  The bootstrap sampler _bootstrap_samples is
imported by the code from the methods module, which is not part of the
visible source; it is modelled opaquely from the spec (section 4.4).
-/

abbrev Str := List Char

abbrev Mat := List (List (Option ℚ))

def strY : Str := "y".toList

def kMean : Str := "mean".toList

def kLevel : Str := "level".toList

def kSigmah : Str := "sigmah".toList

def kYhatInsample : Str := "y_hat_insample".toList

def kYinsample : Str := "y_insample".toList

def kSmat : Str := "S".toList

def kIdxBottom : Str := "idx_bottom".toList

def kTags : Str := "tags".toList

def kBootstrapSamples : Str := "bootstrap_samples".toList

def kBootstrap : Str := "bootstrap".toList

def tokLo : Str := "lo".toList

def tokDashLo : Str := "-lo".toList

def tokDashHi : Str := "-hi".toList

def tokSlash : Str := "/".toList

def tokDashLoDash : Str := "-lo-".toList

def tokDashHiDash : Str := "-hi-".toList

def tokLoDash : Str := "lo-".toList

def tokHiDash : Str := "hi-".toList

/-- Boolean test that the first list is an initial segment of the second. -/
def leadsWith : Str → Str → Bool
  | [], _ => true
  | _ :: _, [] => false
  | c :: n, d :: s => c == d && leadsWith n s

/-- Boolean substring containment, modelling the Python operator `in` on
strings (used by the code to test a model name inside an interval column
name, the token lo inside a bound column name, and the interval markers
-lo and -hi inside column names). -/
def occursIn (n : Str) : Str → Bool
  | [] => n.isEmpty
  | c :: t => leadsWith n (c :: t) || occursIn n t

/-- Deduplication keeping the first occurrence, modelling
`Y_hat_df.index.unique()`. -/
def uniqueFirstAux (seen : List Str) : List Str → List Str
  | [] => []
  | a :: l => if a ∈ seen then uniqueFirstAux seen l else a :: uniqueFirstAux (a :: seen) l

def uniqueFirst (l : List Str) : List Str := uniqueFirstAux [] l

/-- Lexicographic order on names, for the column sorting performed by the
pandas pivot. -/
def strLeB : Str → Str → Bool
  | [], _ => true
  | _ :: _, [] => false
  | c :: s, d :: t => if c = d then strLeB s t else decide (c < d)

def insertSortedStr (a : Str) : List Str → List Str
  | [] => [a]
  | b :: l => if strLeB a b then a :: b :: l else b :: insertSortedStr a l

def sortStrs : List Str → List Str
  | [] => []
  | a :: l => insertSortedStr a (sortStrs l)

/-- A long-format pandas table: a row index of series identifiers, a `ds`
timestamp column, and named value columns. -/
structure DF where
  uid : List Str
  ds : List Str
  cols : List (Str × List ℚ)
  deriving DecidableEq

/-- The aggregation-matrix table `S`: row labels, column labels, values. -/
structure SDF where
  rowIndex : List Str
  colIndex : List Str
  vals : List (List ℚ)
  deriving DecidableEq

/-- Errors raised by the embedded code, one constructor per raise site. -/
inductive RErr where
  | slocKey
  | pivotMissingCol
  | pivotDup
  | pivotLocKey
  | levelParse
  | dictKey
  | ctxKey
  | lenMismatch
  deriving DecidableEq

/-- Values stored in the shared staging dictionary `common_vals`.  The
constructor `pyNone` models the Python value None; `samples` records the
inputs handed to the external bootstrap sampler, whose output is opaque
at this boundary. -/
inductive CtxVal where
  | pyNone
  | mat (m : Mat)
  | levels (l : List Nat)
  | boolv (b : Bool)
  | idxv (l : List Int)
  | tagsv (t : List (Str × List Int))
  | samples (yins : CtxVal) (fitted : Mat) (pointf : Mat) (n : Nat)
  deriving DecidableEq

abbrev Dict := List (Str × CtxVal)

/-- Python dictionary assignment `d[k] = v`: replace in place, or append. -/
def dictInsert : Dict → Str → CtxVal → Dict
  | [], k, v => [(k, v)]
  | (k0, v0) :: d, k, v => if k0 = k then (k, v) :: d else (k0, v0) :: dictInsert d k v

def dictHas (d : Dict) (k : Str) : Bool := d.any (fun p => p.1 == k)

def dictFind (d : Dict) (k : Str) : Option CtxVal := (d.find? (fun p => p.1 == k)).map Prod.snd

def dictErase : Dict → Str → Dict
  | [], _ => []
  | (k0, v0) :: d, k => if k0 = k then d else (k0, v0) :: dictErase d k

/-- Python `del d[k]`: a KeyError when the key is absent. -/
def dictDel (d : Dict) (k : Str) : Except RErr Dict :=
  if dictHas d k then Except.ok (dictErase d k) else Except.error RErr.dictKey

/-- Python `d[k]` lookup: a KeyError when the key is absent. -/
def dictGetE (d : Dict) (k : Str) : Except RErr CtxVal :=
  match dictFind d k with
  | some v => Except.ok v
  | none => Except.error RErr.ctxKey

def colNames (df : DF) : List Str := df.cols.map Prod.fst

def colVals (df : DF) (c : Str) : Option (List ℚ) :=
  (df.cols.find? (fun p => p.1 == c)).map Prod.snd

/-- Membership test `c in df`, which in pandas checks the columns. -/
def dfHasCol (df : DF) (c : Str) : Bool := (colVals df c).isSome

def hasDupPairs : List (Str × Str) → Bool
  | [] => false
  | p :: l => l.any (fun q => q == p) || hasDupPairs l

def pivotCell (rows : List ((Str × Str) × ℚ)) (u d : Str) : Option ℚ :=
  (rows.find? (fun r => r.1.1 == u && r.1.2 == d)).map Prod.snd

/-- Pandas pivot composed with row selection and value extraction,
modelling `df.pivot(columns=ds, values=c).loc[uids].values`: a wide
series-by-time matrix in the order of `uids`, with timestamp columns sorted, missing
(series, timestamp) cells padded with NaN (none), a ValueError on duplicate
(series, timestamp) pairs, a KeyError on a missing value column or on a
requested identifier absent from the pivot index. -/
def pivotLoc (df : DF) (c : Str) (uids : List Str) : Except RErr Mat := do
  let vals ← match colVals df c with
    | some v => Except.ok v
    | none => Except.error RErr.pivotMissingCol
  if hasDupPairs (df.uid.zip df.ds) then
    Except.error RErr.pivotDup
  else
    let rows := (df.uid.zip df.ds).zip vals
    let dcols := sortStrs (uniqueFirst df.ds)
    uids.mapM (fun u =>
      if df.uid.any (fun x => x == u) then
        Except.ok (dcols.map (fun d => pivotCell rows u d))
      else Except.error RErr.pivotLocKey)

def sRow (S : SDF) (u : Str) : Option (List ℚ) :=
  ((S.rowIndex.zip S.vals).find? (fun p => p.1 == u)).map Prod.snd

/-- Row selection `S.loc[uids]`: the rows of the aggregation matrix restricted and
reordered to the uid order; a KeyError when a uid is absent from the row
index (the HierarchyMismatch failure of the spec). -/
def sLoc (S : SDF) (uids : List Str) : Except RErr (List (List ℚ)) :=
  uids.mapM (fun u =>
    match sRow S u with
    | some r => Except.ok r
    | none => Except.error RErr.slocKey)

/-- Positional indexer `index.get_indexer(labels)`: position of each label, -1 when absent. -/
def getIndexer (idx : List Str) (cs : List Str) : List Int :=
  cs.map (fun c =>
    match idx.findIdx? (fun x => x == c) with
    | some i => (i : Int)
    | none => -1)

/-- One hyperparameter rendered as name-value, from the formatted string
interpolation in _build_fn_name. -/
def encodePair (p : Str × Str) : Str := p.1 ++ '-' :: p.2

/-- Underscore join of the rendered hyperparameter parts. -/
def joinUnder : List Str → Str
  | [] => []
  | [s] => s
  | s :: t :: r => s ++ '_' :: joinUnder (t :: r)

/-- The label builder _build_fn_name: the type name of the reconciler,
followed, when the instance dictionary is nonempty, by an underscore and
the underscore-joined `name-value` renderings of its hyperparameters. -/
def buildFnName (tyName : Str) (params : List (Str × Str)) : Str :=
  let func_params := params.map encodePair
  if func_params.isEmpty then tyName else tyName ++ '_' :: joinUnder func_params

def digitsToNat (l : List Char) : Nat := l.foldl (fun n c => 10 * n + (c.toNat - 48)) 0

def spanDigits : Str → List Char × Str
  | [] => ([], [])
  | c :: s =>
    if c.isDigit then
      match spanDigits s with
      | (ds, rest) => (c :: ds, rest)
    else ([], c :: s)

/-- The first numeric token of a column name, modelling the
regular-expression extraction and float conversion of lines 113-114 of
core.py; none models the IndexError raised there when the column name
holds no digits. -/
def firstNumberOpt : Str → Option ℚ
  | [] => none
  | c :: s =>
    if c.isDigit then
      match spanDigits (c :: s) with
      | (ds, rest) =>
        match rest with
        | '.' :: r2 =>
          match spanDigits r2 with
          | (fs, _) => some ((digitsToNat ds : ℚ) + (digitsToNat fs : ℚ) / ((10 : ℚ) ^ fs.length))
        | _ => some ((digitsToNat ds : ℚ))
    else firstNumberOpt s

/-- Modelled from the spec: the formula of the Interval-to-Scale Estimator
(section 4.3), written from the spec wording: sigma equals sign times
(point forecast minus bound) divided by z, with z the inverse standard
normal cumulative distribution function at one half plus level over two
hundred, and sign equal to minus one for a lower bound and plus one for
an upper bound. -/
def specIntervalToScale (ppf : ℚ → ℚ) (lvl pf bound : ℚ) (lower : Bool) : ℚ :=
  (if lower then (-1 : ℚ) else 1) * (pf - bound) / ppf (1 / 2 + lvl / 200)

def zipCell (f : ℚ → ℚ → ℚ) : Option ℚ → Option ℚ → Option ℚ
  | some a, some b => some (f a b)
  | _, _ => none

def zipMat (f : ℚ → ℚ → ℚ) (m1 m2 : Mat) : Mat :=
  (m1.zip m2).map (fun rr => (rr.1.zip rr.2).map (fun p => zipCell f p.1 p.2))

/-- Lines 112 and 115-117 of core.py: the sign from the substring test
for lo on the column name, the z-score from the parsed column level, and
the elementwise scale `sign * (y_hat_model - bound) / z`. -/
def sigmahOf (ppf : ℚ → ℚ) (pi_col : Str) (level_col : ℚ) (y_hat_model s_piv : Mat) : Mat :=
  let sign : ℚ := if occursIn tokLo pi_col then -1 else 1
  let z := ppf (1 / 2 + level_col / 200)
  zipMat (fun a b => sign * (a - b) / z) y_hat_model s_piv

/-- Modelled from the spec: the Bootstrap Uncertainty Provider of section
4.4.  The function _bootstrap_samples is imported by core.py from the
methods module, which is outside the visible source, so only its
input/output contract is modelled: it receives the historical matrix, the
fitted in-sample values, the point forecast and a sample count, and its
output is treated as opaque data staged into the dictionary. -/
def mkBootstrapSamples (y_insample : CtxVal) (y_hat_insample : Mat) (y_hat : Mat) (n_samples : Nat) : CtxVal :=
  CtxVal.samples y_insample y_hat_insample y_hat n_samples

def ctxOfLevel : Option (List Nat) → CtxVal
  | none => CtxVal.pyNone
  | some l => CtxVal.levels l

/-- Lines 106-119 of core.py: when a matching interval column exists, the
method declares the level parameter, a level list was passed, and
bootstrap mode is off, derive sigmah from the first matching column and
stage sigmah and level into the dictionary. -/
def stageSigmah (ppf : ℚ → ℚ) (bootstrap has_level : Bool) (level : Option (List Nat)) (pi_model_name : List Str) (Y_hat : DF) (uids : List Str) (y_hat_model : Mat) (cv : Dict) : Except RErr Dict :=
  match pi_model_name with
  | [] => Except.ok cv
  | pi_col :: _ =>
    match level with
    | none => Except.ok cv
    | some lvls =>
      if has_level && !bootstrap then
        match firstNumberOpt pi_col with
        | none => Except.error RErr.levelParse
        | some level_col => do
          let s_piv ← pivotLoc Y_hat pi_col uids
          Except.ok (dictInsert (dictInsert cv kSigmah
            (CtxVal.mat (sigmahOf ppf pi_col level_col y_hat_model s_piv))) kLevel (CtxVal.levels lvls))
      else Except.ok cv

/-- Lines 120-139 of core.py: when the method declares the fitted-residuals
parameter or bootstrap mode is on, pivot the model column of the
historical table when present (staging it under has_fitted, and in
bootstrap mode with level capability also staging the bootstrap outputs
and the level list), and otherwise stage an explicit None marker. -/
def stageFitted (bootstrap has_fitted has_level : Bool) (level : Option (List Nat)) (Y : DF) (uids : List Str) (model_name : Str) (y_hat_model : Mat) (cv : Dict) : Except RErr Dict :=
  if has_fitted || bootstrap then
    if dfHasCol Y model_name then do
      let y_hat_insample ← pivotLoc Y model_name uids
      let cv1 := if has_fitted then dictInsert cv kYhatInsample (CtxVal.mat y_hat_insample) else cv
      if bootstrap && has_level then do
        let yins ← dictGetE cv1 kYinsample
        let cv2 := dictInsert cv1 kBootstrapSamples (mkBootstrapSamples yins y_hat_insample y_hat_model 1000)
        let cv3 := dictInsert cv2 kBootstrap (CtxVal.boolv bootstrap)
        Except.ok (dictInsert cv3 kLevel (ctxOfLevel level))
      else Except.ok cv1
    else Except.ok (dictInsert cv kYhatInsample CtxVal.pyNone)
  else Except.ok cv

/-- Lines 140-141 of core.py: the call arguments are the declared
parameters of the method that are current dictionary keys, in parameter
order, with their staged values. -/
def kwargsOf (params : List Str) (d : Dict) : Dict :=
  params.filterMap (fun k => (dictFind d k).map (fun v => (k, v)))

/-- A reconciliation method: its type name, its instance dictionary of
hyperparameters, its declared call-signature parameter names, and its
behaviour as an external collaborator returning a result mapping from
field names to series-by-time arrays. -/
structure Reconciler where
  tyName : Str
  hyperparams : List (Str × Str)
  paramNames : List Str
  run : Mat → Dict → Str → List (List ℚ)

def setCol : List (Str × List ℚ) → Str → List ℚ → List (Str × List ℚ)
  | [], c, v => [(c, v)]
  | (c0, v0) :: r, c, v => if c0 = c then (c, v) :: r else (c0, v0) :: setCol r c v

/-- Column assignment `fcsts[c] = values`: pandas raises a ValueError when
the value length differs from the row count, and never changes the rows. -/
def dfAssign (f : DF) (c : Str) (v : List ℚ) : Except RErr DF :=
  if v.length = f.uid.length then Except.ok { f with cols := setCol f.cols c v }
  else Except.error RErr.lenMismatch

def flattenM (m : List (List ℚ)) : List ℚ := m.flatten

def lvlStr (n : Nat) : Str := (Nat.repr n).toList

/-- Lines 145-147 of core.py: the lower and upper result fields of each
requested level written into the output table. -/
def writeIntervals (colBase : Str) (fr : Str → List (List ℚ)) (lvls : List Nat) (f : DF) : Except RErr DF :=
  lvls.foldlM (fun g lv => do
    let g1 ← dfAssign g (colBase ++ tokDashLoDash ++ lvlStr lv) (flattenM (fr (tokLoDash ++ lvlStr lv)))
    dfAssign g1 (colBase ++ tokDashHiDash ++ lvlStr lv) (flattenM (fr (tokHiDash ++ lvlStr lv)))) f

/-- Lines 144-153 of core.py: when intervals were produced, write them and
then delete the staged level, and delete sigmah when bootstrap is off or
the bootstrap outputs when it is on. -/
def intervalsCleanup (bootstrap pi has_level : Bool) (level : Option (List Nat)) (colBase : Str) (fr : Str → List (List ℚ)) (f : DF) (cv : Dict) : Except RErr (DF × Dict) :=
  if (pi && has_level && level.isSome) || (bootstrap && level.isSome) then
    match level with
    | none => Except.ok (f, cv)
    | some lvls => do
      let f1 ← writeIntervals colBase fr lvls f
      let cv1 ← dictDel cv kLevel
      if !bootstrap then do
        let cv2 ← dictDel cv1 kSigmah
        Except.ok (f1, cv2)
      else do
        let cv2 ← dictDel cv1 kBootstrapSamples
        let cv3 ← dictDel cv2 kBootstrap
        Except.ok (f1, cv3)
  else Except.ok (f, cv)

/-- Lines 154-155 of core.py: the staged fitted residuals are deleted when
the method declares the parameter. -/
def cleanupFitted (has_fitted : Bool) (cv : Dict) : Except RErr Dict :=
  if has_fitted then dictDel cv kYhatInsample else Except.ok cv

/-- Lines 100-155 of core.py: the body of the dispatch loop for one
(method, model) pair, threading the output table and the shared staging
dictionary. -/
def modelIter (ppf : ℚ → ℚ) (bootstrap : Bool) (level : Option (List Nat)) (Y_hat Y : DF) (uids pi_model_names : List Str) (rec : Reconciler) (recName : Str) (has_fitted has_level : Bool) (st : DF × Dict) (model_name : Str) : Except RErr (DF × Dict) := do
  let pmn := pi_model_names.filter (fun n => occursIn model_name n)
  let pi := !pmn.isEmpty
  let y_hat_model ← pivotLoc Y_hat model_name uids
  let cv1 ← stageSigmah ppf bootstrap has_level level pmn Y_hat uids y_hat_model st.2
  let cv2 ← stageFitted bootstrap has_fitted has_level level Y uids model_name y_hat_model cv1
  let kwargs := kwargsOf rec.paramNames cv2
  let fr := rec.run y_hat_model kwargs
  let colBase := model_name ++ tokSlash ++ recName
  let f1 ← dfAssign st.1 colBase (flattenM (fr kMean))
  let fd ← intervalsCleanup bootstrap pi has_level level colBase fr f1 cv2
  let cv3 ← cleanupFitted has_fitted fd.2
  Except.ok (fd.1, cv3)

def modelCols (Y_hat : DF) : List Str := (colNames Y_hat).filter (fun n => !(n == strY))

/-- Line 83 of core.py: the column names containing `-lo` or `-hi`. -/
def piModelNames (Y_hat : DF) : List Str :=
  (modelCols Y_hat).filter (fun n => occursIn tokDashLo n || occursIn tokDashHi n)

def modelNames (Y_hat : DF) : List Str :=
  (modelCols Y_hat).filter (fun n => !((piModelNames Y_hat).any (fun p => p == n)))

/-- Line 102 of core.py: the interval columns whose name contains the
model name as a substring. -/
def piMatches (Y_hat : DF) (m : Str) : List Str :=
  (piModelNames Y_hat).filter (fun n => occursIn m n)

/-- Line 103 of core.py: the has-intervals flag `pi`. -/
def piFlag (Y_hat : DF) (m : Str) : Bool := !(piMatches Y_hat m).isEmpty

def hasParam (rec : Reconciler) (k : Str) : Bool := rec.paramNames.any (fun p => p == k)

/-- Lines 86-94 of core.py: the uid ordering and the shared numeric
context built once per call. -/
def buildContext (Y_hat Y : DF) (S : SDF) (tags : List (Str × List Str)) : Except RErr (List Str × Dict) := do
  let uids := uniqueFirst Y_hat.uid
  let Svals ← sLoc S uids
  let y_insample ← pivotLoc Y strY uids
  Except.ok (uids,
    [(kYinsample, CtxVal.mat y_insample),
     (kSmat, CtxVal.mat (Svals.map (fun r => r.map some))),
     (kIdxBottom, CtxVal.idxv (getIndexer uids S.colIndex)),
     (kTags, CtxVal.tagsv (tags.map (fun t => (t.1, getIndexer uids t.2))))])

/-- HierarchicalReconciliation.reconcile, lines 80-156 of core.py. -/
def reconcile (recs : List Reconciler) (Y_hat Y : DF) (S : SDF) (tags : List (Str × List Str)) (level : Option (List Nat)) (bootstrap : Bool) (ppf : ℚ → ℚ) : Except RErr DF := do
  let uc ← buildContext Y_hat Y S tags
  let st ← recs.foldlM (fun st rec =>
      (modelNames Y_hat).foldlM
        (modelIter ppf bootstrap level Y_hat Y uc.1 (piModelNames Y_hat) rec
          (buildFnName rec.tyName rec.hyperparams) (hasParam rec kYhatInsample) (hasParam rec kLevel))
        st)
    (Y_hat, uc.2)
  Except.ok st.1

instance {ε α : Type} [DecidableEq ε] [DecidableEq α] : DecidableEq (Except ε α) := fun x y =>
  match x, y with
  | Except.ok a, Except.ok b =>
    if h : a = b then isTrue (by rw [h]) else isFalse (fun hc => h (Except.ok.inj hc))
  | Except.error e, Except.error f =>
    if h : e = f then isTrue (by rw [h]) else isFalse (fun hc => h (Except.error.inj hc))
  | Except.ok _, Except.error _ => isFalse (fun hc => Except.noConfusion hc)
  | Except.error _, Except.ok _ => isFalse (fun hc => Except.noConfusion hc)

def exOk {α : Type} : Except RErr α → Bool
  | Except.ok _ => true
  | Except.error _ => false

def resultDict (r : Except RErr Dict) : Dict :=
  match r with
  | Except.ok d => d
  | Except.error _ => []

def emptyDF : DF := { uid := [], ds := [], cols := [] }

def resultPair (r : Except RErr (DF × Dict)) : DF × Dict :=
  match r with
  | Except.ok p => p
  | Except.error _ => (emptyDF, [])

def resultDF (r : Except RErr DF) : DF :=
  match r with
  | Except.ok f => f
  | Except.error _ => emptyDF

def resultMat (r : Except RErr Mat) : Mat :=
  match r with
  | Except.ok m => m
  | Except.error _ => []

def matHasNone (m : Mat) : Bool := m.any (fun r => r.any (fun c => c.isNone))

/-- Decoder splitting a name at each underscore, used to invert joinUnder
on separator-free chunks. -/
def splitUnder : Str → List Str
  | [] => [[]]
  | c :: s =>
    if c = '_' then [] :: splitUnder s
    else
      match splitUnder s with
      | [] => [[c]]
      | t :: r => (c :: t) :: r

/-- Decoder splitting a chunk at its first dash, used to invert encodePair
when the name part is dash-free. -/
def splitDash : Str → Str × Str
  | [] => ([], [])
  | c :: s =>
    if c = '-' then ([], s)
    else
      match splitDash s with
      | (a, b) => (c :: a, b)

/-- A hyperparameter pair whose name and rendered value avoid the two
separator characters of the label builder. -/
def CleanPair (p : Str × Str) : Prop :=
  '_' ∉ p.1 ∧ '-' ∉ p.1 ∧ '_' ∉ p.2 ∧ '-' ∉ p.2

instance (p : Str × Str) : Decidable (CleanPair p) := by
  unfold CleanPair
  exact inferInstance

/- Concrete data used by closed counterexamples and witnesses. -/

def uAw : Str := "a".toList

def uBw : Str := "b".toList

def ds1w : Str := "1".toList

def ds2w : Str := "2".toList

def mww : Str := "m".toList

def ppfw : ℚ → ℚ := fun x => x - 1 / 2

def tT8 : Str := "T".toList

def pX1 : List (Str × Str) := [("x".toList, "1_y-2".toList)]

def pX2 : List (Str × Str) := [("x".toList, "1".toList), ("y".toList, "2".toList)]

def pW1 : List (Str × Str) := [("a".toList, "1".toList)]

def pW2 : List (Str × Str) := [("a".toList, "2".toList)]

def nvW : Str := "naive".toList

def nv2loW : Str := "naive2-lo-80".toList

def YtenW : DF :=
  { uid := [uAw], ds := [ds1w], cols := [(nvW, [1]), ("naive2".toList, [2]), (nv2loW, [3])] }

def cLo80w : Str := "m-lo-80".toList

def Yh2w : DF := { uid := [uAw], ds := [ds1w], cols := [(mww, [10]), (cLo80w, [8])] }

def cv0w : Dict := [(kYinsample, CtxVal.mat [[some 9]])]

def c0w : Str := "m-lo-0".toList

def Yh5w : DF := { uid := [uAw], ds := [ds1w], cols := [(mww, [10]), (c0w, [8])] }

def Yh1w : DF := { uid := [uAw], ds := [ds1w], cols := [(mww, [10])] }

def Yd1w : DF := { uid := [uAw], ds := [ds1w], cols := [(strY, [9]), (mww, [9])] }

def rec1w : Reconciler :=
  { tyName := tT8, hyperparams := [],
    paramNames := ["y_hat".toList, kYhatInsample, kLevel, kBootstrapSamples, kBootstrap],
    run := fun _ _ _ => [[5]] }

def Yd2w : DF := { uid := [uAw], ds := [ds1w], cols := [(strY, [9])] }

def rec9w : Reconciler :=
  { tyName := tT8, hyperparams := [], paramNames := ["y_hat".toList, kYhatInsample],
    run := fun _ _ _ => [[7]] }

def Yragw : DF := { uid := [uAw, uAw, uBw], ds := [ds1w, ds2w, ds1w], cols := [(mww, [1, 2, 3])] }

def Ydragw : DF := { uid := [uAw, uBw], ds := [ds1w, ds1w], cols := [(strY, [1, 1])] }

def Sragw : SDF := { rowIndex := [uAw, uBw], colIndex := [uBw], vals := [[1], [1]] }

def recIdw : Reconciler :=
  { tyName := tT8, hyperparams := [], paramNames := ["y_hat".toList],
    run := fun _ _ _ => [[0, 0, 0]] }

def YhBw : DF := { uid := [uBw], ds := [ds1w], cols := [(mww, [1])] }

def SAw : SDF := { rowIndex := [uAw], colIndex := [uAw], vals := [[1]] }

def Sw1 : SDF := { rowIndex := [uAw], colIndex := [uAw], vals := [[1]] }

/- General lemmas about the Except monad, folds, and the dictionary. -/

theorem ebind_ok {α β : Type} (a : α) (f : α → Except RErr β) :
    (Except.ok a >>= f) = f a := rfl

theorem ebind_err {α β : Type} (e : RErr) (f : α → Except RErr β) :
    ((Except.error e : Except RErr α) >>= f) = Except.error e := rfl

theorem foldlM_inv {α β : Type} (P : α → Prop) (f : α → β → Except RErr α)
    (hf : ∀ a b a2, P a → f a b = Except.ok a2 → P a2) :
    ∀ (l : List β) (a a2 : α), P a → l.foldlM f a = Except.ok a2 → P a2 := by
  intro l
  induction l with
  | nil =>
    intro a a2 hP h
    simp only [List.foldlM_nil] at h
    cases h
    exact hP
  | cons b t ih =>
    intro a a2 hP h
    rw [List.foldlM_cons] at h
    cases hfa : f a b with
    | error e => rw [hfa, ebind_err] at h; cases h
    | ok a1 => rw [hfa, ebind_ok] at h; exact ih a1 a2 (hf a b a1 hP hfa) h

theorem foldlM_total {α β : Type} (P : α → Prop) (f : α → β → Except RErr α)
    (hf : ∀ a b, P a → ∃ a2, f a b = Except.ok a2 ∧ P a2) :
    ∀ (l : List β) (a : α), P a → ∃ a2, l.foldlM f a = Except.ok a2 ∧ P a2 := by
  intro l
  induction l with
  | nil =>
    intro a hP
    exact ⟨a, by simp only [List.foldlM_nil]; rfl, hP⟩
  | cons b t ih =>
    intro a hP
    rcases hf a b hP with ⟨a1, hfa, hP1⟩
    rcases ih a1 hP1 with ⟨a2, hfold, hP2⟩
    exact ⟨a2, by rw [List.foldlM_cons, hfa, ebind_ok]; exact hfold, hP2⟩

theorem dictHas_insert_self (d : Dict) (k : Str) (v : CtxVal) :
    dictHas (dictInsert d k v) k = true := by
  induction d with
  | nil => simp [dictInsert, dictHas]
  | cons p t ih =>
    by_cases h : p.1 = k
    · simp [dictInsert, dictHas, h]
    · simp only [dictInsert, dictHas] at *
      cases p with
      | mk k0 v0 =>
        simp only at h
        simp [h, List.any_cons, ih]

theorem dictHas_insert_ne (d : Dict) (k k2 : Str) (v : CtxVal) (h : k2 ≠ k) :
    dictHas (dictInsert d k v) k2 = dictHas d k2 := by
  have hke : ¬(k = k2) := fun e => h (Eq.symm e)
  induction d with
  | nil => simp [dictInsert, dictHas, hke]
  | cons p t ih =>
    cases p with
    | mk k0 v0 =>
      by_cases h0 : k0 = k
      · simp [dictInsert, dictHas, h0, hke]
      · simp only [dictInsert, if_neg h0, dictHas, List.any_cons]
        exact congrArg (fun b => (k0 == k2 || b)) ih

theorem dictFind_insert_self (d : Dict) (k : Str) (v : CtxVal) :
    dictFind (dictInsert d k v) k = some v := by
  induction d with
  | nil => simp [dictInsert, dictFind]
  | cons p t ih =>
    cases p with
    | mk k0 v0 =>
      by_cases h0 : k0 = k
      · simp [dictInsert, dictFind, h0]
      · have hb : (k0 == k) = false := by
          simp only [beq_eq_false_iff_ne, ne_eq]
          exact h0
        simp only [dictInsert, if_neg h0]
        simp only [dictFind, List.find?, hb]
        exact ih

theorem dictErase_insert_self (d : Dict) (k : Str) (v : CtxVal) (h : dictHas d k = false) :
    dictErase (dictInsert d k v) k = d := by
  induction d with
  | nil => simp [dictInsert, dictErase]
  | cons p t ih =>
    cases p with
    | mk k0 v0 =>
      simp only [dictHas, List.any_cons, Bool.or_eq_false_iff, beq_eq_false_iff_ne, ne_eq] at h
      have h0 : ¬(k0 = k) := h.1
      have ht : dictHas t k = false := h.2
      simp [dictInsert, dictErase, h0, ih ht]

theorem dictErase_insert_ne (d : Dict) (k k2 : Str) (v : CtxVal) (h : k2 ≠ k) :
    dictErase (dictInsert d k v) k2 = dictInsert (dictErase d k2) k v := by
  have hke : ¬(k = k2) := fun e => h (Eq.symm e)
  induction d with
  | nil => simp [dictInsert, dictErase, hke]
  | cons p t ih =>
    cases p with
    | mk k0 v0 =>
      by_cases h0 : k0 = k
      · subst h0
        simp [dictInsert, dictErase, hke]
      · by_cases h2 : k0 = k2
        · subst h2
          simp [dictInsert, dictErase, h0, ih]
        · simp [dictInsert, dictErase, h0, h2, ih]

theorem dictHas_erase_ne (d : Dict) (k k2 : Str) (h : k2 ≠ k) :
    dictHas (dictErase d k) k2 = dictHas d k2 := by
  induction d with
  | nil => simp [dictErase]
  | cons p t ih =>
    cases p with
    | mk k0 v0 =>
      by_cases h0 : k0 = k
      · subst h0
        have hne : (k0 == k2) = false := by
          simp only [beq_eq_false_iff_ne, ne_eq]
          exact fun e => h (Eq.symm e)
        simp [dictErase, dictHas, List.any_cons, hne]
      · simp only [dictErase, if_neg h0, dictHas, List.any_cons]
        exact congrArg (fun b => (k0 == k2 || b)) ih

/- Lemmas for the label builder. -/

theorem splitUnder_push (s t : Str) (h : '_' ∉ s) :
    splitUnder (s ++ '_' :: t) = s :: splitUnder t := by
  induction s with
  | nil => simp [splitUnder]
  | cons c s ih =>
    have hc : ¬(c = '_') := fun e => h (by rw [e]; exact List.mem_cons_self _ _)
    have hs : '_' ∉ s := fun m => h (List.mem_cons_of_mem _ m)
    rw [List.cons_append]
    simp only [splitUnder, if_neg hc, ih hs]

theorem splitUnder_single (s : Str) (h : '_' ∉ s) : splitUnder s = [s] := by
  induction s with
  | nil => rfl
  | cons c s ih =>
    have hc : ¬(c = '_') := fun e => h (by rw [e]; exact List.mem_cons_self _ _)
    have hs : '_' ∉ s := fun m => h (List.mem_cons_of_mem _ m)
    simp only [splitUnder, if_neg hc, ih hs]

theorem splitUnder_join (l : List Str) (hne : l ≠ []) (h : ∀ s ∈ l, '_' ∉ s) :
    splitUnder (joinUnder l) = l := by
  induction l with
  | nil => exact absurd rfl hne
  | cons s r ih =>
    cases r with
    | nil => exact splitUnder_single s (h s (List.mem_cons_self _ _))
    | cons t r2 =>
      show splitUnder (s ++ '_' :: joinUnder (t :: r2)) = s :: t :: r2
      rw [splitUnder_push s _ (h s (List.mem_cons_self _ _))]
      rw [ih (by simp) (fun x hx => h x (List.mem_cons_of_mem _ hx))]

theorem splitDash_push (n v : Str) (h : '-' ∉ n) : splitDash (n ++ '-' :: v) = (n, v) := by
  induction n with
  | nil => simp [splitDash]
  | cons c s ih =>
    have hc : ¬(c = '-') := fun e => h (by rw [e]; exact List.mem_cons_self _ _)
    have hs : '-' ∉ s := fun m => h (List.mem_cons_of_mem _ m)
    rw [List.cons_append]
    simp only [splitDash, if_neg hc, ih hs]

theorem encodePair_no_under (p : Str × Str) (hp : CleanPair p) : '_' ∉ encodePair p := by
  intro hm
  rcases List.mem_append.mp hm with h1 | h2
  · exact hp.1 h1
  · rcases List.mem_cons.mp h2 with he | h3
    · exact absurd he (by decide)
    · exact hp.2.2.1 h3

theorem encodePair_inj (p q : Str × Str) (hp : CleanPair p) (hq : CleanPair q)
    (he : encodePair p = encodePair q) : p = q := by
  have h1 : splitDash (encodePair p) = (p.1, p.2) := splitDash_push p.1 p.2 hp.2.1
  have h2 : splitDash (encodePair q) = (q.1, q.2) := splitDash_push q.1 q.2 hq.2.1
  rw [he, h2] at h1
  exact h1.symm

theorem encode_list_inj (l1 l2 : List (Str × Str)) (h1 : ∀ p ∈ l1, CleanPair p)
    (h2 : ∀ p ∈ l2, CleanPair p) (he : l1.map encodePair = l2.map encodePair) : l1 = l2 := by
  induction l1 generalizing l2 with
  | nil =>
    cases l2 with
    | nil => rfl
    | cons q r2 => simp at he
  | cons p r ih =>
    cases l2 with
    | nil => simp at he
    | cons q r2 =>
      simp only [List.map_cons, List.cons.injEq] at he
      have hpq := encodePair_inj p q (h1 p (List.mem_cons_self _ _)) (h2 q (List.mem_cons_self _ _)) he.1
      rw [hpq, ih r2 (fun x hx => h1 x (List.mem_cons_of_mem _ hx))
        (fun x hx => h2 x (List.mem_cons_of_mem _ hx)) he.2]

theorem map_encode_no_under (l : List (Str × Str)) (h : ∀ p ∈ l, CleanPair p) :
    ∀ s ∈ l.map encodePair, '_' ∉ s := by
  intro s hs
  rcases List.mem_map.mp hs with ⟨x, hx, rfl⟩
  exact encodePair_no_under x (h x hx)

/-- Claim C8 (counterexample): the label builder maps the two distinct
hyperparameter assignments of pX1 and pX2 (same underlying type) to the
same label, because the separator characters occur inside a rendered
value; the claim that distinct hyperparameters always produce distinct
labels is therefore false on the code. -/
theorem C8_label_collision : pX1 ≠ pX2 ∧ buildFnName tT8 pX1 = buildFnName tT8 pX2 := by
  exact ⟨by decide, by decide⟩

/-- Claim C8 (amended): two method instances of the same underlying type
with different hyperparameter assignments receive distinct labels from the
label builder provided no hyperparameter name or rendered value contains
the separator characters underscore or dash; without that proviso the
underscore-joined name-value rendering can collide. -/
theorem C8_label_injective (t : Str) (ps1 ps2 : List (Str × Str))
    (h1 : ∀ p ∈ ps1, CleanPair p) (h2 : ∀ p ∈ ps2, CleanPair p) (hne : ps1 ≠ ps2) :
    buildFnName t ps1 ≠ buildFnName t ps2 := by
  intro he
  apply hne
  unfold buildFnName at he
  cases ps1 with
  | nil =>
    cases ps2 with
    | nil => rfl
    | cons q r2 =>
      exfalso
      simp only [List.map_nil, List.isEmpty_nil, if_true, List.map_cons, List.isEmpty_cons,
        if_false, Bool.false_eq_true] at he
      have hl := congrArg List.length he
      simp [List.length_append] at hl
  | cons p r =>
    cases ps2 with
    | nil =>
      exfalso
      simp only [List.map_nil, List.isEmpty_nil, if_true, List.map_cons, List.isEmpty_cons,
        if_false, Bool.false_eq_true] at he
      have hl := congrArg List.length he
      simp [List.length_append] at hl
    | cons q r2 =>
      simp only [List.map_cons, List.isEmpty_cons, if_false, Bool.false_eq_true] at he
      have hJ := List.append_cancel_left he
      have hJ2 := (List.cons.inj hJ).2
      have e1 := splitUnder_join ((p :: r).map encodePair) (by simp)
        (map_encode_no_under _ h1)
      have e2 := splitUnder_join ((q :: r2).map encodePair) (by simp)
        (map_encode_no_under _ h2)
      have hmap : (p :: r).map encodePair = (q :: r2).map encodePair := by
        rw [← e1, ← e2]
        simp only [List.map_cons] at hJ2 ⊢
        rw [hJ2]
      exact encode_list_inj _ _ h1 h2 hmap

/-- Claim C8 (witness): the amended label-distinctness theorem applied to
two concrete separator-free hyperparameter assignments. -/
theorem C8_label_injective_witness : buildFnName tT8 pW1 ≠ buildFnName tT8 pW2 :=
  C8_label_injective tT8 pW1 pW2 (by decide) (by decide) (by decide)

/- Lemmas connecting the Boolean substring test to the infix relation. -/

theorem leadsWith_iff (n s : Str) : leadsWith n s = true ↔ n <+: s := by
  induction n generalizing s with
  | nil => simp [leadsWith]
  | cons c n ih =>
    cases s with
    | nil => simp [leadsWith]
    | cons d s =>
      simp [leadsWith, Bool.and_eq_true, beq_iff_eq, ih, List.cons_prefix_cons]

theorem occursIn_iff (n h : Str) : occursIn n h = true ↔ n <:+: h := by
  induction h with
  | nil => simp [occursIn, List.isEmpty_iff]
  | cons c t ih =>
    simp [occursIn, Bool.or_eq_true, leadsWith_iff, ih, List.infix_cons_iff]

/-- Claim C10: the has-intervals flag of the dispatcher is true for model
name m exactly when some interval-marked column name (containing -lo or
-hi) contains m as a substring; consequently, on the concrete table YtenW
holding models naive and naive2 with the single interval column
naive2-lo-80, the flag for naive is true although naive has no interval
column of its own, and the unique (hence first) matching column handed to
the scale recovery is the bound of naive2. -/
theorem C10_has_intervals_flag :
    (∀ (Y_hat : DF) (m : Str), piFlag Y_hat m = true ↔ ∃ c, c ∈ piModelNames Y_hat ∧ m <:+: c)
    ∧ piFlag YtenW nvW = true
    ∧ piMatches YtenW nvW = [nv2loW]
    ∧ occursIn "naive2".toList nv2loW = true := by
  refine ⟨?_, by decide, by decide, by decide⟩
  intro Yh m
  constructor
  · intro hf
    cases hm : piMatches Yh m with
    | nil => rw [piFlag, hm] at hf; simp at hf
    | cons c r =>
      have hc : c ∈ piMatches Yh m := by rw [hm]; exact List.mem_cons_self _ _
      have hm2 := List.mem_filter.mp hc
      exact ⟨c, hm2.1, (occursIn_iff m c).mp hm2.2⟩
  · rintro ⟨c, hc, hinf⟩
    have hc2 : c ∈ piMatches Yh m :=
      List.mem_filter.mpr ⟨hc, (occursIn_iff m c).mpr hinf⟩
    rw [piFlag]
    cases hm : piMatches Yh m with
    | nil => rw [hm] at hc2; cases hc2
    | cons a r => simp

/- The Interval-to-Scale formula. -/

theorem zip_map_some (g : ℚ → ℚ → ℚ) (xs ys : List ℚ) :
    ((xs.map some).zip (ys.map some)).map (fun p => zipCell g p.1 p.2)
      = (xs.zip ys).map (fun p => some (g p.1 p.2)) := by
  induction xs generalizing ys with
  | nil => simp
  | cons x xs ih =>
    cases ys with
    | nil => simp
    | cons y ys =>
      simp only [List.map_cons, List.zip_cons_cons]
      rw [ih]
      rfl

/-- Claim C3: for every point-forecast vector, observed bound vector, side
indicator (the substring test for lo on the column name) and confidence
level in the open interval (0,100), the staged scale of the code equals,
cell by cell, the spec formula sigma = sign * (point - bound) / z with
z the inverse normal cumulative distribution function at 0.5 + level/200
and sign = -1 for a lower bound and +1 for an upper bound. -/
theorem C3_interval_to_scale (ppf : ℚ → ℚ) (pi_col : Str) (lvl : ℚ) (pfs bounds : List ℚ)
    (h0 : 0 < lvl) (h1 : lvl < 100) :
    sigmahOf ppf pi_col lvl [pfs.map some] [bounds.map some]
      = [(pfs.zip bounds).map (fun p =>
          some (specIntervalToScale ppf lvl p.1 p.2 (occursIn tokLo pi_col)))] := by
  show zipMat _ [pfs.map some] [bounds.map some] = _
  simp only [zipMat, List.zip_cons_cons, List.zip_nil_right, List.map_cons, List.map_nil]
  rw [zip_map_some]
  rfl

/-- Claim C3 (witness): the formula theorem applied at level 80 with a
one-cell lower-bound column. -/
theorem C3_interval_to_scale_witness :
    (0 : ℚ) < 80 ∧ (80 : ℚ) < 100 ∧
    sigmahOf ppfw cLo80w 80 [[(10 : ℚ)].map some] [[(8 : ℚ)].map some]
      = [([(10 : ℚ)].zip [(8 : ℚ)]).map (fun p =>
          some (specIntervalToScale ppfw 80 p.1 p.2 (occursIn tokLo cLo80w)))] :=
  ⟨by norm_num, by norm_num,
    C3_interval_to_scale ppfw cLo80w 80 [10] [8] (by norm_num) (by norm_num)⟩

/- Lemmas for the context-building failure path. -/

theorem sRow_eq_none (S : SDF) (u : Str) (hm : u ∉ S.rowIndex) : sRow S u = none := by
  unfold sRow
  rw [List.find?_eq_none.mpr]
  · rfl
  · intro p hp hb
    obtain ⟨a, b⟩ := p
    have ha : a ∈ S.rowIndex := (List.of_mem_zip hp).1
    have : a = u := by simpa using hb
    exact hm (this ▸ ha)

theorem mem_uniqueFirstAux (l : List Str) (seen : List Str) (u : Str)
    (hu : u ∈ l) (hs : u ∉ seen) : u ∈ uniqueFirstAux seen l := by
  induction l generalizing seen with
  | nil => cases hu
  | cons a t ih =>
    rcases List.mem_cons.mp hu with rfl | ht
    · unfold uniqueFirstAux
      split
      · exact absurd (by assumption) hs
      · exact List.mem_cons_self _ _
    · unfold uniqueFirstAux
      split
      · exact ih seen ht hs
      · by_cases hua : u = a
        · rw [hua]; exact List.mem_cons_self _ _
        · refine List.mem_cons_of_mem _ (ih (a :: seen) ht ?_)
          intro hmem
          rcases List.mem_cons.mp hmem with h1 | h2
          · exact hua h1
          · exact hs h2

theorem mem_uniqueFirst (l : List Str) (u : Str) (hu : u ∈ l) : u ∈ uniqueFirst l :=
  mem_uniqueFirstAux l [] u hu (by simp)

theorem sLoc_error (S : SDF) (uids : List Str) (u : Str) (hu : u ∈ uids)
    (hm : u ∉ S.rowIndex) : sLoc S uids = Except.error RErr.slocKey := by
  have hnone := sRow_eq_none S u hm
  unfold sLoc
  induction uids with
  | nil => cases hu
  | cons a t ih =>
    rw [List.mapM_cons]
    rcases List.mem_cons.mp hu with rfl | ht
    · simp only [hnone]
      rfl
    · cases hr : sRow S a with
      | none => simp only [hr]; rfl
      | some r =>
        simp only [hr]
        rw [ebind_ok, ih ht]
        rfl

/-- Claim C4: when some series identifier of the base-forecast table is
absent from the row index of the aggregation matrix, the reconcile call
fails immediately with the hierarchy-mismatch KeyError raised by the row
selection S.loc, before any iteration runs, and returns no output table. -/
theorem C4_hierarchy_mismatch (recs : List Reconciler) (Y_hat Y : DF) (S : SDF)
    (tags : List (Str × List Str)) (level : Option (List Nat)) (bootstrap : Bool) (ppf : ℚ → ℚ)
    (u : Str) (hu : u ∈ Y_hat.uid) (hm : u ∉ S.rowIndex) :
    reconcile recs Y_hat Y S tags level bootstrap ppf = Except.error RErr.slocKey := by
  have hs : sLoc S (uniqueFirst Y_hat.uid) = Except.error RErr.slocKey :=
    sLoc_error S _ u (mem_uniqueFirst _ u hu) hm
  simp only [reconcile, buildContext, hs, ebind_err]

/-- Claim C4 (witness): the hierarchy-mismatch theorem applied to a table
whose only series b is absent from the matrix indexed by a. -/
theorem C4_hierarchy_mismatch_witness :
    reconcile [rec1w] YhBw Yd1w SAw [] none false ppfw = Except.error RErr.slocKey :=
  C4_hierarchy_mismatch [rec1w] YhBw Yd1w SAw [] none false ppfw uBw (by decide) (by decide)

/-- Claim C2: the scale estimate sigmah is staged into the shared context
by the staging step exactly when all four conditions hold: a matching
interval-bound column exists (the pi flag of line 103), the method
declares the level parameter, a non-null level list was passed, and
bootstrap mode is off; and when it is staged it derives from exactly the
first matching interval column, either bound. -/
theorem C2_sigmah_staging (ppf : ℚ → ℚ) (bootstrap has_level : Bool) (level : Option (List Nat))
    (pmn : List Str) (Y_hat : DF) (uids : List Str) (yhm : Mat) (cv cv2 : Dict)
    (hns : dictHas cv kSigmah = false)
    (hok : stageSigmah ppf bootstrap has_level level pmn Y_hat uids yhm cv = Except.ok cv2) :
    (dictHas cv2 kSigmah = true ↔ (pmn ≠ [] ∧ has_level = true ∧ level ≠ none ∧ bootstrap = false))
    ∧ (∀ pi_col rest lvls, pmn = pi_col :: rest → level = some lvls →
        has_level = true → bootstrap = false →
        ∃ lc s_piv, firstNumberOpt pi_col = some lc ∧ pivotLoc Y_hat pi_col uids = Except.ok s_piv ∧
          cv2 = dictInsert (dictInsert cv kSigmah
            (CtxVal.mat (sigmahOf ppf pi_col lc yhm s_piv))) kLevel (CtxVal.levels lvls)) := by
  cases pmn with
  | nil =>
    unfold stageSigmah at hok
    cases hok
    constructor
    · rw [hns]
      simp
    · intro pi_col rest lvls hp
      cases hp
  | cons c r =>
    cases level with
    | none =>
      unfold stageSigmah at hok
      cases hok
      constructor
      · rw [hns]
        simp
      · intro pi_col rest lvls hp hl
        cases hl
    | some lvls0 =>
      simp only [stageSigmah] at hok
      by_cases hcond : (has_level && !bootstrap) = true
      · rw [if_pos hcond] at hok
        have hhl : has_level = true := by
          cases has_level
          · simp at hcond
          · rfl
        have hb : bootstrap = false := by
          cases bootstrap
          · rfl
          · simp at hcond
        cases hparse : firstNumberOpt c with
        | none =>
          simp only [hparse] at hok
          cases hok
        | some lc =>
          simp only [hparse] at hok
          cases hpv : pivotLoc Y_hat c uids with
          | error e =>
            rw [hpv, ebind_err] at hok
            cases hok
          | ok sp =>
            rw [hpv, ebind_ok] at hok
            have hcv2 : cv2 = dictInsert (dictInsert cv kSigmah
                (CtxVal.mat (sigmahOf ppf c lc yhm sp))) kLevel (CtxVal.levels lvls0) := by
              cases hok
              rfl
            constructor
            · rw [hcv2, dictHas_insert_ne _ _ _ _ (by decide), dictHas_insert_self]
              simp [hhl, hb]
            · intro pi_col rest lvls hp hl hhl2 hb2
              cases hp
              cases hl
              exact ⟨lc, sp, hparse, hpv, hcv2⟩
      · rw [if_neg hcond] at hok
        cases hok
        constructor
        · constructor
          · intro hfalse
            rw [hns] at hfalse
            cases hfalse
          · rintro ⟨h1, h2, h3, h4⟩
            exact absurd (by rw [h2, h4]; rfl) hcond
        · intro pi_col rest lvls hp hl hhl hb
          exact absurd (by rw [hhl, hb]; rfl) hcond

/-- Claim C2 (witness): the staging theorem applied to a concrete world
where all four conditions hold, showing sigmah present afterwards. -/
theorem C2_sigmah_staging_witness :
    dictHas (resultDict (stageSigmah ppfw false true (some [80]) [cLo80w] Yh2w [uAw]
      [[some 10]] cv0w)) kSigmah = true := by
  have h := C2_sigmah_staging ppfw false true (some [80]) [cLo80w] Yh2w [uAw] [[some 10]] cv0w
    (resultDict (stageSigmah ppfw false true (some [80]) [cLo80w] Yh2w [uAw] [[some 10]] cv0w))
    (by decide) rfl
  exact h.1.mpr ⟨by simp, rfl, by simp, rfl⟩

/-- Claim C5 (counterexample): for the interval column m-lo-0, whose
encoded confidence level is 0 and therefore outside the open interval
(0,100), the Interval-to-Scale staging completes with ok and stages a
sigmah value instead of rejecting the input with an
invalid-confidence-level error: the code computes z = ppf(0.5) = 0 and
divides by it silently, so the claim of explicit rejection is false. -/
theorem C5_no_rejection_at_level_zero :
    exOk (stageSigmah ppfw false true (some [0]) [c0w] Yh5w [uAw] [[some 10]] []) = true
    ∧ firstNumberOpt c0w = some 0
    ∧ ¬((0 : ℚ) < 0 ∧ (0 : ℚ) < 100)
    ∧ dictHas (resultDict (stageSigmah ppfw false true (some [0]) [c0w] Yh5w [uAw]
        [[some 10]] [])) kSigmah = true := by
  refine ⟨rfl, by decide, by norm_num, rfl⟩

/-- Claim C5 (amended): the estimator boundary performs no validation of
the confidence level: whenever the staging conditions hold and the pivot
succeeds, the staging step returns ok and stages the computed scale even
for a parsed level outside the open interval (0,100) (at level 0 the
divisor z = ppf(0.5) is the zero of the inverse normal distribution, and
the degenerate quotient is staged silently); no
invalid-confidence-level rejection exists in the code. -/
theorem C5_no_level_validation (ppf : ℚ → ℚ) (has_level : Bool) (lvls : List Nat)
    (pi_col : Str) (rest : List Str) (Y_hat : DF) (uids : List Str) (yhm s_piv : Mat)
    (cv : Dict) (L : ℚ)
    (hhl : has_level = true)
    (hparse : firstNumberOpt pi_col = some L)
    (hout : ¬(0 < L ∧ L < 100))
    (hpv : pivotLoc Y_hat pi_col uids = Except.ok s_piv) :
    stageSigmah ppf false has_level (some lvls) (pi_col :: rest) Y_hat uids yhm cv
      = Except.ok (dictInsert (dictInsert cv kSigmah
          (CtxVal.mat (sigmahOf ppf pi_col L yhm s_piv))) kLevel (CtxVal.levels lvls)) := by
  subst hhl
  simp only [stageSigmah]
  have hc : (true && !false) = true := rfl
  rw [if_pos hc]
  simp only [hparse]
  rw [hpv, ebind_ok]

/-- Claim C5 (amended witness): the no-validation theorem applied at the
concrete level-0 column. -/
theorem C5_no_level_validation_witness :
    stageSigmah ppfw false true (some [0]) [c0w] Yh5w [uAw] [[some 10]] []
      = Except.ok (dictInsert (dictInsert [] kSigmah
          (CtxVal.mat (sigmahOf ppfw c0w 0 [[some 10]] [[some 8]]))) kLevel (CtxVal.levels [0])) :=
  C5_no_level_validation ppfw true [0] c0w [] Yh5w [uAw] [[some 10]] [[some 8]] [] 0
    rfl (by decide) (by norm_num) rfl

/- Lemma: the pivot succeeds on any well-formed input, ragged or not. -/

theorem mapM_ok_of_all {α β : Type} (f : α → Except RErr β) (g : α → β) (l : List α)
    (h : ∀ a ∈ l, f a = Except.ok (g a)) : l.mapM f = Except.ok (l.map g) := by
  induction l with
  | nil => rfl
  | cons a t ih =>
    rw [List.mapM_cons, h a (List.mem_cons_self _ _), ebind_ok,
      ih (fun x hx => h x (List.mem_cons_of_mem _ hx)), ebind_ok]
    rfl

/-- Claim C6 (counterexample): on the ragged table Yragw, where series a
has timestamps 1 and 2 but series b only timestamp 1, the pivot succeeds
and pads the missing cell with NaN (none), and the whole reconcile call
completes; no detection or rejection of ragged horizons happens before
matrix construction, so the claim is false on the code. -/
theorem C6_no_ragged_detection :
    exOk (pivotLoc Yragw mww [uAw, uBw]) = true
    ∧ matHasNone (resultMat (pivotLoc Yragw mww [uAw, uBw])) = true
    ∧ exOk (reconcile [recIdw] Yragw Ydragw Sragw [] none false ppfw) = true := by
  refine ⟨rfl, rfl, rfl⟩

/-- Claim C6 (amended): the code performs no ragged-horizon check: the
pivot succeeds for every table whose value column exists, whose (series,
timestamp) pairs are duplicate-free and whose requested identifiers all
appear in the index, however ragged the per-series timestamp sets are;
missing cells are padded with NaN (none) and reconciliation proceeds on
the padded matrix instead of rejecting the input. -/
theorem C6_pivot_total (df : DF) (c : Str) (uids : List Str)
    (hc : dfHasCol df c = true)
    (hdup : hasDupPairs (df.uid.zip df.ds) = false)
    (hu : ∀ u ∈ uids, (df.uid.any (fun x => x == u)) = true) :
    ∃ m, pivotLoc df c uids = Except.ok m := by
  unfold pivotLoc
  cases hcv : colVals df c with
  | none =>
    rw [dfHasCol, hcv] at hc
    cases hc
  | some vals =>
    refine ⟨uids.map (fun u => (sortStrs (uniqueFirst df.ds)).map
      (fun d => pivotCell ((df.uid.zip df.ds).zip vals) u d)), ?_⟩
    simp only [hcv]
    rw [ebind_ok, hdup]
    simp only [Bool.false_eq_true, if_false]
    exact mapM_ok_of_all _ _ uids (fun u hx => by simp [hu u hx])

/-- Claim C6 (amended witness): the pivot-totality theorem applied to the
concrete ragged table. -/
theorem C6_pivot_total_witness : ∃ m, pivotLoc Yragw mww [uAw, uBw] = Except.ok m :=
  C6_pivot_total Yragw mww [uAw, uBw] (by decide) (by decide) (by decide)

/- Lemmas about the iteration body. -/

theorem dfAssign_rows (f : DF) (c : Str) (v : List ℚ) (f2 : DF)
    (h : dfAssign f c v = Except.ok f2) : f2.uid = f.uid ∧ f2.ds = f.ds := by
  unfold dfAssign at h
  split at h
  · cases h
    exact ⟨rfl, rfl⟩
  · cases h

theorem dictDel_ok (d : Dict) (k : Str) (d2 : Dict) (h : dictDel d k = Except.ok d2) :
    d2 = dictErase d k := by
  unfold dictDel at h
  split at h
  · cases h
    rfl
  · cases h

theorem dictDel_ok_of_has (d : Dict) (k : Str) (h : dictHas d k = true) :
    dictDel d k = Except.ok (dictErase d k) := by
  unfold dictDel
  rw [if_pos h]

theorem stageSigmah_cases (ppf : ℚ → ℚ) (has_level : Bool) (level : Option (List Nat))
    (pmn : List Str) (Y_hat : DF) (uids : List Str) (yhm : Mat) (cv cv1 : Dict)
    (hok : stageSigmah ppf false has_level level pmn Y_hat uids yhm cv = Except.ok cv1) :
    ((!pmn.isEmpty && has_level && level.isSome) = false ∧ cv1 = cv)
    ∨ ((!pmn.isEmpty && has_level && level.isSome) = true ∧
        ∃ a lvls, level = some lvls ∧
          cv1 = dictInsert (dictInsert cv kSigmah a) kLevel (CtxVal.levels lvls)) := by
  cases pmn with
  | nil =>
    unfold stageSigmah at hok
    cases hok
    left
    exact ⟨rfl, rfl⟩
  | cons c r =>
    cases level with
    | none =>
      unfold stageSigmah at hok
      cases hok
      left
      exact ⟨by simp, rfl⟩
    | some lvls0 =>
      simp only [stageSigmah] at hok
      cases has_level with
      | false =>
        rw [if_neg (by simp)] at hok
        cases hok
        left
        exact ⟨by simp, rfl⟩
      | true =>
        have hc : (true && !false) = true := rfl
        rw [if_pos hc] at hok
        cases hparse : firstNumberOpt c with
        | none =>
          simp only [hparse] at hok
          cases hok
        | some lc =>
          simp only [hparse] at hok
          cases hpv : pivotLoc Y_hat c uids with
          | error e =>
            rw [hpv, ebind_err] at hok
            cases hok
          | ok sp =>
            rw [hpv, ebind_ok] at hok
            right
            refine ⟨rfl, CtxVal.mat (sigmahOf ppf c lc yhm sp), lvls0, rfl, ?_⟩
            cases hok
            rfl

theorem stageFitted_cases (has_fitted has_level : Bool) (level : Option (List Nat)) (Y : DF)
    (uids : List Str) (model_name : Str) (yhm : Mat) (cv cv2 : Dict)
    (hok : stageFitted false has_fitted has_level level Y uids model_name yhm cv = Except.ok cv2) :
    (has_fitted = false ∧ cv2 = cv)
    ∨ (has_fitted = true ∧ ∃ w, cv2 = dictInsert cv kYhatInsample w) := by
  cases has_fitted with
  | false =>
    left
    refine ⟨rfl, ?_⟩
    simp only [stageFitted, Bool.false_or, Bool.false_eq_true, if_false] at hok
    cases hok
    rfl
  | true =>
    right
    refine ⟨rfl, ?_⟩
    simp only [stageFitted, Bool.true_or, if_true] at hok
    cases hhc : dfHasCol Y model_name with
    | true =>
      simp only [hhc, if_true] at hok
      cases hpv : pivotLoc Y model_name uids with
      | error e =>
        rw [hpv, ebind_err] at hok
        cases hok
      | ok yhi =>
        rw [hpv, ebind_ok] at hok
        simp only [if_pos rfl, Bool.false_and, Bool.false_eq_true, if_false] at hok
        cases hok
        exact ⟨CtxVal.mat yhi, rfl⟩
    | false =>
      simp only [hhc, Bool.false_eq_true, if_false] at hok
      cases hok
      exact ⟨CtxVal.pyNone, rfl⟩

theorem cleanupFitted_cases (has_fitted : Bool) (cv cv3 : Dict)
    (hok : cleanupFitted has_fitted cv = Except.ok cv3) :
    (has_fitted = false ∧ cv3 = cv) ∨ (has_fitted = true ∧ cv3 = dictErase cv kYhatInsample) := by
  cases has_fitted with
  | false =>
    simp only [cleanupFitted, Bool.false_eq_true, if_false] at hok
    cases hok
    left
    exact ⟨rfl, rfl⟩
  | true =>
    simp only [cleanupFitted, if_true] at hok
    right
    exact ⟨rfl, dictDel_ok cv kYhatInsample cv3 hok⟩

theorem writeIntervals_rows (colBase : Str) (fr : Str → List (List ℚ)) (lvls : List Nat)
    (f f2 : DF) (hok : writeIntervals colBase fr lvls f = Except.ok f2) :
    f2.uid = f.uid ∧ f2.ds = f.ds := by
  refine foldlM_inv (fun g => g.uid = f.uid ∧ g.ds = f.ds) _ ?_ lvls f f2 ⟨rfl, rfl⟩ hok
  intro a b a2 hP hstep
  cases hda : dfAssign a (colBase ++ tokDashLoDash ++ lvlStr b) (flattenM (fr (tokLoDash ++ lvlStr b))) with
  | error e =>
    rw [hda, ebind_err] at hstep
    cases hstep
  | ok g1 =>
    rw [hda, ebind_ok] at hstep
    have h1 := dfAssign_rows a _ _ g1 hda
    have h2 := dfAssign_rows g1 _ _ a2 hstep
    exact ⟨h2.1.trans (h1.1.trans hP.1), h2.2.trans (h1.2.trans hP.2)⟩

theorem intervalsCleanup_rows (bootstrap pi has_level : Bool) (level : Option (List Nat))
    (colBase : Str) (fr : Str → List (List ℚ)) (f : DF) (cv : Dict) (f2 : DF) (cvout : Dict)
    (hok : intervalsCleanup bootstrap pi has_level level colBase fr f cv = Except.ok (f2, cvout)) :
    f2.uid = f.uid ∧ f2.ds = f.ds := by
  cases level with
  | none =>
    simp only [intervalsCleanup] at hok
    split at hok
    · cases hok
      exact ⟨rfl, rfl⟩
    · cases hok
      exact ⟨rfl, rfl⟩
  | some lvls =>
    simp only [intervalsCleanup] at hok
    split at hok
    · cases hwi : writeIntervals colBase fr lvls f with
      | error e =>
        rw [hwi, ebind_err] at hok
        cases hok
      | ok f1 =>
        rw [hwi, ebind_ok] at hok
        have hr := writeIntervals_rows colBase fr lvls f f1 hwi
        cases hdl : dictDel cv kLevel with
        | error e =>
          rw [hdl, ebind_err] at hok
          cases hok
        | ok cva =>
          rw [hdl, ebind_ok] at hok
          split at hok
          · cases hds : dictDel cva kSigmah with
            | error e =>
              rw [hds, ebind_err] at hok
              cases hds2 : hok
            | ok cvb =>
              rw [hds, ebind_ok] at hok
              cases hok
              exact hr
          · cases hds : dictDel cva kBootstrapSamples with
            | error e =>
              rw [hds, ebind_err] at hok
              cases hok
            | ok cvb =>
              rw [hds, ebind_ok] at hok
              cases hds2 : dictDel cvb kBootstrap with
              | error e =>
                rw [hds2, ebind_err] at hok
                cases hok
              | ok cvc =>
                rw [hds2, ebind_ok] at hok
                cases hok
                exact hr
    · cases hok
      exact ⟨rfl, rfl⟩

theorem intervalsCleanup_cases (pi has_level : Bool) (level : Option (List Nat))
    (colBase : Str) (fr : Str → List (List ℚ)) (f : DF) (cv : Dict) (fd : DF × Dict)
    (hok : intervalsCleanup false pi has_level level colBase fr f cv = Except.ok fd) :
    ((pi && has_level && level.isSome) = false ∧ fd.2 = cv)
    ∨ ((pi && has_level && level.isSome) = true ∧
        fd.2 = dictErase (dictErase cv kLevel) kSigmah) := by
  cases level with
  | none =>
    left
    refine ⟨by simp, ?_⟩
    simp only [intervalsCleanup] at hok
    split at hok
    · cases hok
      rfl
    · cases hok
      rfl
  | some lvls =>
    simp only [intervalsCleanup] at hok
    cases hcond : (pi && has_level) with
    | false =>
      left
      refine ⟨by simp [hcond], ?_⟩
      rw [if_neg (by simp [hcond])] at hok
      cases hok
      rfl
    | true =>
      right
      refine ⟨by simp [hcond], ?_⟩
      rw [if_pos (by simp [hcond])] at hok
      cases hwi : writeIntervals colBase fr lvls f with
      | error e =>
        rw [hwi, ebind_err] at hok
        cases hok
      | ok f1 =>
        rw [hwi, ebind_ok] at hok
        cases hdl : dictDel cv kLevel with
        | error e =>
          rw [hdl, ebind_err] at hok
          cases hok
        | ok cva =>
          rw [hdl, ebind_ok] at hok
          have hca := dictDel_ok cv kLevel cva hdl
          have hcb : (!false) = true := rfl
          rw [if_pos hcb] at hok
          cases hds : dictDel cva kSigmah with
          | error e =>
            rw [hds, ebind_err] at hok
            cases hok
          | ok cvb =>
            rw [hds, ebind_ok] at hok
            have hcc := dictDel_ok cva kSigmah cvb hds
            cases hok
            rw [hcc, hca]

theorem modelIter_inv (ppf : ℚ → ℚ) (bootstrap : Bool) (level : Option (List Nat))
    (Y_hat Y : DF) (uids pi_model_names : List Str) (rec : Reconciler) (recName : Str)
    (has_fitted has_level : Bool) (st : DF × Dict) (model_name : Str) (out : DF × Dict)
    (hok : modelIter ppf bootstrap level Y_hat Y uids pi_model_names rec recName has_fitted
      has_level st model_name = Except.ok out) :
    ∃ yhm cv1 cv2 f1 fd,
      pivotLoc Y_hat model_name uids = Except.ok yhm
      ∧ stageSigmah ppf bootstrap has_level level
          (pi_model_names.filter (fun n => occursIn model_name n)) Y_hat uids yhm st.2
          = Except.ok cv1
      ∧ stageFitted bootstrap has_fitted has_level level Y uids model_name yhm cv1
          = Except.ok cv2
      ∧ dfAssign st.1 (model_name ++ tokSlash ++ recName)
          (flattenM (rec.run yhm (kwargsOf rec.paramNames cv2) kMean)) = Except.ok f1
      ∧ intervalsCleanup bootstrap
          (!(pi_model_names.filter (fun n => occursIn model_name n)).isEmpty) has_level level
          (model_name ++ tokSlash ++ recName) (rec.run yhm (kwargsOf rec.paramNames cv2)) f1 cv2
          = Except.ok fd
      ∧ cleanupFitted has_fitted fd.2 = Except.ok out.2
      ∧ out.1 = fd.1 := by
  simp only [modelIter] at hok
  cases hpv : pivotLoc Y_hat model_name uids with
  | error e =>
    rw [hpv, ebind_err] at hok
    cases hok
  | ok yhm =>
    rw [hpv, ebind_ok] at hok
    cases hss : stageSigmah ppf bootstrap has_level level
        (pi_model_names.filter (fun n => occursIn model_name n)) Y_hat uids yhm st.2 with
    | error e =>
      rw [hss, ebind_err] at hok
      cases hok
    | ok cv1 =>
      rw [hss, ebind_ok] at hok
      cases hsf : stageFitted bootstrap has_fitted has_level level Y uids model_name yhm cv1 with
      | error e =>
        rw [hsf, ebind_err] at hok
        cases hok
      | ok cv2 =>
        rw [hsf, ebind_ok] at hok
        cases hda : dfAssign st.1 (model_name ++ tokSlash ++ recName)
            (flattenM (rec.run yhm (kwargsOf rec.paramNames cv2) kMean)) with
        | error e =>
          rw [hda, ebind_err] at hok
          cases hok
        | ok f1 =>
          rw [hda, ebind_ok] at hok
          cases hic : intervalsCleanup bootstrap
              (!(pi_model_names.filter (fun n => occursIn model_name n)).isEmpty) has_level level
              (model_name ++ tokSlash ++ recName) (rec.run yhm (kwargsOf rec.paramNames cv2))
              f1 cv2 with
          | error e =>
            rw [hic, ebind_err] at hok
            cases hok
          | ok fd =>
            rw [hic, ebind_ok] at hok
            cases hcf : cleanupFitted has_fitted fd.2 with
            | error e =>
              rw [hcf, ebind_err] at hok
              cases hok
            | ok cv3 =>
              rw [hcf, ebind_ok] at hok
              cases hok
              exact ⟨yhm, cv1, cv2, f1, fd, rfl, hss, hsf, hda, hic, hcf, rfl⟩

theorem ebind_ok_inv {α β : Type} (x : Except RErr α) (g : α → Except RErr β) (b : β)
    (h : (x >>= g) = Except.ok b) : ∃ a, x = Except.ok a ∧ g a = Except.ok b := by
  cases x with
  | error e =>
    rw [ebind_err] at h
    cases h
  | ok a =>
    rw [ebind_ok] at h
    exact ⟨a, rfl, h⟩

theorem modelIter_rows (ppf : ℚ → ℚ) (bootstrap : Bool) (level : Option (List Nat))
    (Y_hat Y : DF) (uids pi_model_names : List Str) (rec : Reconciler) (recName : Str)
    (has_fitted has_level : Bool) (st : DF × Dict) (model_name : Str) (out : DF × Dict)
    (hok : modelIter ppf bootstrap level Y_hat Y uids pi_model_names rec recName has_fitted
      has_level st model_name = Except.ok out) :
    out.1.uid = st.1.uid ∧ out.1.ds = st.1.ds := by
  rcases modelIter_inv ppf bootstrap level Y_hat Y uids pi_model_names rec recName has_fitted
    has_level st model_name out hok with ⟨yhm, cv1, cv2, f1, fd, hpv, hss, hsf, hda, hic, hcf, hout1⟩
  have h1 := dfAssign_rows st.1 _ _ f1 hda
  have h2 := intervalsCleanup_rows bootstrap _ has_level level _ _ f1 cv2 fd.1 fd.2 hic
  rw [hout1]
  exact ⟨h2.1.trans h1.1, h2.2.trans h1.2⟩

/-- Claim C7: for all valid inputs, whenever the reconcile call returns a
table, the returned table has exactly the row-identifier and timestamp
columns of the input base-forecast table, in the same order: the call only
adds columns and never adds, removes or reorders rows. -/
theorem C7_rows_preserved (recs : List Reconciler) (Y_hat Y : DF) (S : SDF)
    (tags : List (Str × List Str)) (level : Option (List Nat)) (bootstrap : Bool)
    (ppf : ℚ → ℚ) (df2 : DF)
    (hok : reconcile recs Y_hat Y S tags level bootstrap ppf = Except.ok df2) :
    df2.uid = Y_hat.uid ∧ df2.ds = Y_hat.ds := by
  unfold reconcile at hok
  rcases ebind_ok_inv _ _ _ hok with ⟨uc, hbc, hok2⟩
  rcases ebind_ok_inv _ _ _ hok2 with ⟨st, hfold, hok3⟩
  cases hok3
  refine foldlM_inv (fun (s : DF × Dict) => s.1.uid = Y_hat.uid ∧ s.1.ds = Y_hat.ds)
    _ ?_ recs (Y_hat, uc.2) st ⟨rfl, rfl⟩ hfold
  intro a b a2 hP hstep
  refine foldlM_inv (fun (s : DF × Dict) => s.1.uid = Y_hat.uid ∧ s.1.ds = Y_hat.ds)
    _ ?_ (modelNames Y_hat) a a2 hP hstep
  intro a3 mn a4 hP2 hstep2
  have h := modelIter_rows ppf bootstrap level Y_hat Y uc.1 (piModelNames Y_hat) b
    (buildFnName b.tyName b.hyperparams) (hasParam b kYhatInsample) (hasParam b kLevel)
    a3 mn a4 hstep2
  exact ⟨h.1.trans hP2.1, h.2.trans hP2.2⟩

/-- Claim C7 (witness): the row-preservation theorem applied to a concrete
successful run. -/
theorem C7_rows_preserved_witness :
    (resultDF (reconcile [rec1w] Yh1w Yd1w Sw1 [] none false ppfw)).uid = Yh1w.uid
    ∧ (resultDF (reconcile [rec1w] Yh1w Yd1w Sw1 [] none false ppfw)).ds = Yh1w.ds :=
  C7_rows_preserved [rec1w] Yh1w Yd1w Sw1 [] none false ppfw
    (resultDF (reconcile [rec1w] Yh1w Yd1w Sw1 [] none false ppfw)) rfl

/-- Claim C1 (counterexample): with bootstrap mode on, a residual-capable
and level-capable method, a null level list and a model column present in
the historical table, the iteration stages bootstrap_samples, bootstrap
and a null level into the shared dictionary and completes without deleting
them, and the call-argument builder of the next iteration would hand the
stale bootstrap_samples over; the claim that every per-iteration staged
field is removed before the next (method, model) iteration begins is
therefore false on the code. -/
theorem C1_staging_leak :
    exOk (modelIter ppfw true none Yh1w Yd1w [uAw] [] rec1w tT8 true true (Yh1w, cv0w) mww) = true
    ∧ dictHas (resultPair (modelIter ppfw true none Yh1w Yd1w [uAw] [] rec1w tT8 true true
        (Yh1w, cv0w) mww)).2 kBootstrapSamples = true
    ∧ dictHas (resultPair (modelIter ppfw true none Yh1w Yd1w [uAw] [] rec1w tT8 true true
        (Yh1w, cv0w) mww)).2 kBootstrap = true
    ∧ dictHas (resultPair (modelIter ppfw true none Yh1w Yd1w [uAw] [] rec1w tT8 true true
        (Yh1w, cv0w) mww)).2 kLevel = true
    ∧ dictHas (kwargsOf rec1w.paramNames (resultPair (modelIter ppfw true none Yh1w Yd1w [uAw]
        [] rec1w tT8 true true (Yh1w, cv0w) mww)).2) kBootstrapSamples = true :=
  ⟨rfl, rfl, rfl, rfl, rfl⟩

/-- Claim C1 (amended): with bootstrap mode off, the dispatch iteration
purges every per-iteration staged field before it ends: whatever was
staged among the scale estimate, the level list and the fitted residuals
is deleted again, and the shared staging dictionary returns to exactly its
pre-iteration contents, so no later iteration can observe a staged field
of an earlier one; with bootstrap mode on this fails, as the
counterexample shows. -/
theorem C1_no_leak_without_bootstrap (ppf : ℚ → ℚ) (level : Option (List Nat)) (Y_hat Y : DF)
    (uids pi_model_names : List Str) (rec : Reconciler) (recName : Str)
    (has_fitted has_level : Bool) (fcsts : DF) (cv : Dict) (model_name : Str) (out : DF × Dict)
    (h1 : dictHas cv kSigmah = false) (h2 : dictHas cv kLevel = false)
    (h3 : dictHas cv kYhatInsample = false)
    (hok : modelIter ppf false level Y_hat Y uids pi_model_names rec recName has_fitted
      has_level (fcsts, cv) model_name = Except.ok out) :
    out.2 = cv := by
  rcases modelIter_inv ppf false level Y_hat Y uids pi_model_names rec recName has_fitted
    has_level (fcsts, cv) model_name out hok with
    ⟨yhm, cv1, cv2, f1, fd, hpv, hss, hsf, hda, hic, hcf, hout1⟩
  rcases stageSigmah_cases ppf has_level level _ Y_hat uids yhm cv cv1 hss with
    ⟨hb, hcv1⟩ | ⟨hb, a, lvls, hlev, hcv1⟩
  · rcases intervalsCleanup_cases _ has_level level _ _ f1 cv2 fd hic with
      ⟨_, hfd⟩ | ⟨hbt, hfd⟩
    · rcases stageFitted_cases has_fitted has_level level Y uids model_name yhm cv1 cv2 hsf with
        ⟨hf, hcv2⟩ | ⟨hf, w, hcv2⟩
      · rcases cleanupFitted_cases has_fitted fd.2 out.2 hcf with ⟨_, hcv3⟩ | ⟨hft, _⟩
        · rw [hcv3, hfd, hcv2, hcv1]
        · rw [hf] at hft
          cases hft
      · rcases cleanupFitted_cases has_fitted fd.2 out.2 hcf with ⟨hff, _⟩ | ⟨_, hcv3⟩
        · rw [hf] at hff
          cases hff
        · rw [hcv3, hfd, hcv2, hcv1]
          exact dictErase_insert_self cv kYhatInsample w h3
    · rw [hb] at hbt
      cases hbt
  · rcases intervalsCleanup_cases _ has_level level _ _ f1 cv2 fd hic with
      ⟨hbf, hfd⟩ | ⟨_, hfd⟩
    · rw [hb] at hbf
      cases hbf
    · have hx1 : dictHas (dictInsert cv kSigmah a) kLevel = false := by
        rw [dictHas_insert_ne cv kSigmah kLevel a (by decide)]
        exact h2
      rcases stageFitted_cases has_fitted has_level level Y uids model_name yhm cv1 cv2 hsf with
        ⟨hf, hcv2⟩ | ⟨hf, w, hcv2⟩
      · rcases cleanupFitted_cases has_fitted fd.2 out.2 hcf with ⟨_, hcv3⟩ | ⟨hft, _⟩
        · rw [hcv3, hfd, hcv2, hcv1]
          rw [dictErase_insert_self _ kLevel (CtxVal.levels lvls) hx1]
          exact dictErase_insert_self cv kSigmah a h1
        · rw [hf] at hft
          cases hft
      · rcases cleanupFitted_cases has_fitted fd.2 out.2 hcf with ⟨hff, _⟩ | ⟨_, hcv3⟩
        · rw [hf] at hff
          cases hff
        · rw [hcv3, hfd, hcv2, hcv1]
          rw [dictErase_insert_ne _ kYhatInsample kLevel w (by decide)]
          rw [dictErase_insert_self _ kLevel (CtxVal.levels lvls) hx1]
          rw [dictErase_insert_ne _ kYhatInsample kSigmah w (by decide)]
          rw [dictErase_insert_self cv kSigmah a h1]
          exact dictErase_insert_self cv kYhatInsample w h3

/-- Claim C1 (amended witness): the no-leak theorem applied to a concrete
non-bootstrap iteration with intervals and fitted residuals staged. -/
theorem C1_no_leak_without_bootstrap_witness :
    (resultPair (modelIter ppfw false (some [80]) Yh2w Yd1w [uAw] [cLo80w] rec1w tT8 true true
      (Yh2w, cv0w) mww)).2 = cv0w :=
  C1_no_leak_without_bootstrap ppfw (some [80]) Yh2w Yd1w [uAw] [cLo80w] rec1w tT8 true true
    Yh2w cv0w mww
    (resultPair (modelIter ppfw false (some [80]) Yh2w Yd1w [uAw] [cLo80w] rec1w tT8 true true
      (Yh2w, cv0w) mww))
    (by decide) (by decide) (by decide) rfl

theorem dfAssign_ok (f : DF) (c : Str) (v : List ℚ) (hlen : v.length = f.uid.length) :
    ∃ f2, dfAssign f c v = Except.ok f2 ∧ f2.uid = f.uid := by
  refine ⟨{ f with cols := setCol f.cols c v }, ?_, rfl⟩
  unfold dfAssign
  rw [if_pos hlen]

theorem writeIntervals_ok (colBase : Str) (fr : Str → List (List ℚ)) (lvls : List Nat) (f : DF)
    (hlen : ∀ k, (flattenM (fr k)).length = f.uid.length) :
    ∃ f1, writeIntervals colBase fr lvls f = Except.ok f1 ∧ f1.uid = f.uid := by
  unfold writeIntervals
  refine foldlM_total (fun g => g.uid = f.uid) _ ?_ lvls f rfl
  intro a b hP
  rcases dfAssign_ok a (colBase ++ tokDashLoDash ++ lvlStr b)
    (flattenM (fr (tokLoDash ++ lvlStr b))) (by rw [hP]; exact hlen _) with ⟨g1, hg1, hu1⟩
  rcases dfAssign_ok g1 (colBase ++ tokDashHiDash ++ lvlStr b)
    (flattenM (fr (tokHiDash ++ lvlStr b))) (by rw [hu1, hP]; exact hlen _) with ⟨g2, hg2, hu2⟩
  refine ⟨g2, ?_, hu2.trans (hu1.trans hP)⟩
  rw [hg1, ebind_ok, hg2]

theorem intervalsCleanup_ok (pi has_level : Bool) (level : Option (List Nat)) (colBase : Str)
    (fr : Str → List (List ℚ)) (f : DF) (cv : Dict)
    (hdel : (pi && has_level && level.isSome) = true →
      dictHas cv kLevel = true ∧ dictHas (dictErase cv kLevel) kSigmah = true)
    (hlen : ∀ k, (flattenM (fr k)).length = f.uid.length) :
    ∃ fd, intervalsCleanup false pi has_level level colBase fr f cv = Except.ok fd
      ∧ (fd.2 = cv ∨ fd.2 = dictErase (dictErase cv kLevel) kSigmah) := by
  cases level with
  | none =>
    refine ⟨(f, cv), ?_, Or.inl rfl⟩
    simp only [intervalsCleanup]
    split
    · rfl
    · rfl
  | some lvls =>
    cases hcond : (pi && has_level) with
    | false =>
      refine ⟨(f, cv), ?_, Or.inl rfl⟩
      simp only [intervalsCleanup]
      rw [if_neg (by simp [hcond])]
    | true =>
      rcases writeIntervals_ok colBase fr lvls f hlen with ⟨f1, hwi, _⟩
      rcases hdel (by simp [hcond]) with ⟨hd1, hd2⟩
      refine ⟨(f1, dictErase (dictErase cv kLevel) kSigmah), ?_, Or.inr rfl⟩
      simp only [intervalsCleanup]
      rw [if_pos (by simp [hcond])]
      rw [hwi, ebind_ok, dictDel_ok_of_has cv kLevel hd1, ebind_ok]
      have hcb : (!false) = true := rfl
      rw [if_pos hcb, dictDel_ok_of_has _ kSigmah hd2, ebind_ok]

/-- Claim C9 (counterexample): with bootstrap mode on and a non-null level
list, an iteration whose method declares the fitted-residuals parameter
but whose model has no column in the historical table crashes with a
KeyError inside the dispatcher itself (deleting the never-staged level
key), so the claim that every such iteration completes without raising is
false on the code. -/
theorem C9_bootstrap_crash :
    modelIter ppfw true (some [80]) Yh1w Yd2w [uAw] [] rec1w tT8 true true (Yh1w, cv0w) mww
      = Except.error RErr.dictKey := by
  rfl

/-- Claim C9 (amended): with bootstrap mode off, for every iteration whose
method declares the fitted-residuals parameter while the historical table
has no column named after the model, the dispatcher stages the explicit
Python None as fitted residuals, the call-argument builder passes that
None to the method, and the iteration completes without raising (given
that the forecast pivots succeed and the method result rows have the
table length); with bootstrap mode on and a level list this same
configuration raises a KeyError instead, as the counterexample shows. -/
theorem C9_absent_insample_null (ppf : ℚ → ℚ) (level : Option (List Nat)) (Y_hat Y : DF)
    (uids pi_model_names : List Str) (rec : Reconciler) (recName : Str) (has_level : Bool)
    (fcsts : DF) (cv cv1 : Dict) (model_name : Str) (yhm : Mat)
    (hp : kYhatInsample ∈ rec.paramNames)
    (habs : dfHasCol Y model_name = false)
    (hpv : pivotLoc Y_hat model_name uids = Except.ok yhm)
    (hss : stageSigmah ppf false has_level level
      (pi_model_names.filter (fun n => occursIn model_name n)) Y_hat uids yhm cv
      = Except.ok cv1)
    (hlen : ∀ k, (flattenM (rec.run yhm (kwargsOf rec.paramNames
      (dictInsert cv1 kYhatInsample CtxVal.pyNone)) k)).length = fcsts.uid.length) :
    stageFitted false true has_level level Y uids model_name yhm cv1
      = Except.ok (dictInsert cv1 kYhatInsample CtxVal.pyNone)
    ∧ (kYhatInsample, CtxVal.pyNone) ∈ kwargsOf rec.paramNames
        (dictInsert cv1 kYhatInsample CtxVal.pyNone)
    ∧ ∃ out, modelIter ppf false level Y_hat Y uids pi_model_names rec recName true has_level
        (fcsts, cv) model_name = Except.ok out := by
  have hsf : stageFitted false true has_level level Y uids model_name yhm cv1
      = Except.ok (dictInsert cv1 kYhatInsample CtxVal.pyNone) := by
    simp only [stageFitted, Bool.true_or, if_true, habs, Bool.false_eq_true, if_false]
  have hkw : (kYhatInsample, CtxVal.pyNone) ∈ kwargsOf rec.paramNames
      (dictInsert cv1 kYhatInsample CtxVal.pyNone) := by
    unfold kwargsOf
    apply List.mem_filterMap.mpr
    refine ⟨kYhatInsample, hp, ?_⟩
    rw [dictFind_insert_self]
    rfl
  have hdel : ((!(pi_model_names.filter (fun n => occursIn model_name n)).isEmpty && has_level
      && level.isSome) = true →
      dictHas (dictInsert cv1 kYhatInsample CtxVal.pyNone) kLevel = true
      ∧ dictHas (dictErase (dictInsert cv1 kYhatInsample CtxVal.pyNone) kLevel) kSigmah
        = true) := by
    intro hc
    rcases stageSigmah_cases ppf has_level level _ Y_hat uids yhm cv cv1 hss with
      ⟨hb, _⟩ | ⟨_, a, lvls, hlev, hcv1⟩
    · rw [hb] at hc
      cases hc
    · constructor
      · rw [dictHas_insert_ne cv1 kYhatInsample kLevel CtxVal.pyNone (by decide), hcv1]
        exact dictHas_insert_self _ _ _
      · rw [dictHas_erase_ne _ kLevel kSigmah (by decide),
          dictHas_insert_ne cv1 kYhatInsample kSigmah CtxVal.pyNone (by decide), hcv1,
          dictHas_insert_ne _ kLevel kSigmah (CtxVal.levels lvls) (by decide)]
        exact dictHas_insert_self cv kSigmah a
  refine ⟨hsf, hkw, ?_⟩
  simp only [modelIter]
  rw [hpv, ebind_ok, hss, ebind_ok, hsf, ebind_ok]
  rcases dfAssign_ok fcsts (model_name ++ tokSlash ++ recName)
    (flattenM (rec.run yhm (kwargsOf rec.paramNames
      (dictInsert cv1 kYhatInsample CtxVal.pyNone)) kMean)) (hlen kMean) with ⟨f1, hda, hu1⟩
  rw [hda, ebind_ok]
  rcases intervalsCleanup_ok (!(pi_model_names.filter (fun n => occursIn model_name n)).isEmpty)
    has_level level (model_name ++ tokSlash ++ recName)
    (rec.run yhm (kwargsOf rec.paramNames (dictInsert cv1 kYhatInsample CtxVal.pyNone)))
    f1 (dictInsert cv1 kYhatInsample CtxVal.pyNone) hdel
    (fun k => by rw [hu1]; exact hlen k) with ⟨fd, hic, hor⟩
  rw [hic, ebind_ok]
  have hyf : dictHas fd.2 kYhatInsample = true := by
    rcases hor with h | h
    · rw [h]
      exact dictHas_insert_self _ _ _
    · rw [h, dictHas_erase_ne _ kSigmah kYhatInsample (by decide),
        dictHas_erase_ne _ kLevel kYhatInsample (by decide)]
      exact dictHas_insert_self _ _ _
  have hcf : cleanupFitted true fd.2 = Except.ok (dictErase fd.2 kYhatInsample) := by
    simp only [cleanupFitted, if_true]
    exact dictDel_ok_of_has _ _ hyf
  rw [hcf, ebind_ok]
  exact ⟨(fd.1, dictErase fd.2 kYhatInsample), rfl⟩

/-- Claim C9 (amended witness): the null-residual theorem applied to a
concrete non-bootstrap iteration whose model is absent from the
historical table; the iteration completes. -/
theorem C9_absent_insample_null_witness :
    exOk (modelIter ppfw false none Yh1w Yd2w [uAw] [] rec9w tT8 true false
      (Yh1w, cv0w) mww) = true := by
  rcases C9_absent_insample_null ppfw none Yh1w Yd2w [uAw] [] rec9w tT8 false Yh1w cv0w cv0w
    mww [[some 10]] (by decide) (by decide) rfl rfl (fun k => rfl) with ⟨_, _, out, hout⟩
  rw [hout]
  rfl
